import Mathlib

/-!
Verification of the Phoenix SDR `simple_am_receiver` network I/Q client.

The development shallowly embeds the program from `src/simple_am_receiver.c`:
the byte-level wire protocol (stream header, data frames, metadata frames),
the robust receive loop `recv_full`, the session orchestration in `main`,
and the per-sample DSP chain (two biquad lowpass filters, envelope detector,
DC blocker, audio AGC, decimation, volume scaling and clamping).

Machine floats are modelled as real numbers; machine integers as `Nat`/`Int`.
The network is modelled as the list of bytes the socket would deliver;
a short read (mid-stream disconnect) is a read past the end of that list.
-/

namespace AmReceiver

/-! ### Protocol constants (from the C `#define`s) -/

def IQ_MAGIC_HEADER : ℕ := 0x50485849
def IQ_MAGIC_DATA : ℕ := 0x49514451
def IQ_MAGIC_META : ℕ := 0x4D455441
def IQ_FORMAT_S16 : ℕ := 1
def DECIMATION_FACTOR : ℕ := 42
def AUDIO_BUFFER_SIZE : ℕ := 4096

/-- Size in bytes of `iq_stream_header_t` (eight packed `uint32_t` fields). -/
def STREAM_HEADER_SIZE : ℕ := 32

/-- Size in bytes of `iq_data_frame_t` (four packed `uint32_t` fields). -/
def FRAME_HDR_SIZE : ℕ := 16

/-- Size in bytes of `iq_metadata_update_t` (eight packed `uint32_t` fields). -/
def META_SIZE : ℕ := 32

/-! ### Byte-level decoding -/

/-- Little-endian value of a list of bytes (general basis-256 fold). -/
def le (bs : List ℕ) : ℕ := bs.foldr (fun b acc => b + 256 * acc) 0

/-- The `uint32_t` stored little-endian at byte offset `off` of stream `s`. -/
def u32At (s : List ℕ) (off : ℕ) : ℕ := le ((s.drop off).take 4)

/-- Reinterpret a `uint16_t` value as the `int16_t` with the same bits. -/
def toInt16 (v : ℕ) : ℤ := if v < 32768 then (v : ℤ) else (v : ℤ) - 65536

/-- Decode an interleaved I/Q payload: consecutive 4-byte groups become
`(I, Q)` pairs of 16-bit signed samples, little-endian, as the C code reads
`int16_t` pairs out of `frame_buffer`. -/
def decodeSamples : List ℕ → List (ℤ × ℤ)
  | b0 :: b1 :: b2 :: b3 :: rest =>
      (toInt16 (b0 + 256 * b1), toInt16 (b2 + 256 * b3)) :: decodeSamples rest
  | _ => []

/-! ### Frame Reader (`recv_full`)

`recv_full` is modelled at the granularity of individual `recv` calls.
`recvs i` is the outcome of the `i`-th `recv` on the socket: `none` for a
transport error and `some k` for `k` bytes delivered (`some 0` is EOF, which
the C code's `received <= 0` check also treats as failure).  `run i` is the
value of the `g_running` shutdown flag observed before the `i`-th attempt.
The function returns the C return value (`-1` or the byte total) together
with the number of bytes actually copied into the destination. -/

def recvFullGo (recvs : ℕ → Option ℕ) (run : ℕ → Bool) (len : ℕ) :
    ℕ → ℕ → ℤ × ℕ := fun i total =>
  if _h : total < len ∧ run i = true then
    match recvs i with
    | none => (-1, total)
    | some 0 => (-1, total)
    | some (k + 1) => recvFullGo recvs run len (i + 1) (total + (k + 1))
  else ((total : ℤ), total)
termination_by i total => len - total
decreasing_by omega

/-- Model of `recv_full(sock, buf, len)`: return value and bytes copied. -/
def recv_full (recvs : ℕ → Option ℕ) (run : ℕ → Bool) (len : ℕ) : ℤ × ℕ :=
  recvFullGo recvs run len 0 0

/-! ### Stream-level reads

At the session level the socket is abstracted as the list of bytes it will
deliver; `recv_full` of `n` bytes succeeds exactly when `n` bytes remain
(a disconnect/short read is modelled by the list running out). -/

/-- All-or-failure read of `n` bytes from the byte stream. -/
def recvBytes (s : List ℕ) (n : ℕ) : Option (List ℕ × List ℕ) :=
  if n ≤ s.length then some (s.take n, s.drop n) else none

/-! ### DSP chain (floats modelled as reals) -/

noncomputable section DspDefs

/-- Struct `lowpass_t`: biquad state and coefficients. -/
structure Lowpass where
  x1 : ℝ
  x2 : ℝ
  y1 : ℝ
  y2 : ℝ
  b0 : ℝ
  b1 : ℝ
  b2 : ℝ
  a1 : ℝ
  a2 : ℝ

/-- Function `lowpass_init`: Butterworth coefficients, zeroed history.
The numeric literals `3.14159265` and `0.7071` are those of the C source. -/
def lowpass_init (cutoff_hz sample_rate : ℝ) : Lowpass :=
  let w0 : ℝ := 2 * 3.14159265 * cutoff_hz / sample_rate
  let alpha : ℝ := Real.sin w0 / (2 * 0.7071)
  let cos_w0 : ℝ := Real.cos w0
  let a0 : ℝ := 1 + alpha
  { b0 := (1 - cos_w0) / 2 / a0
    b1 := (1 - cos_w0) / a0
    b2 := (1 - cos_w0) / 2 / a0
    a1 := -2 * cos_w0 / a0
    a2 := (1 - alpha) / a0
    x1 := 0, x2 := 0, y1 := 0, y2 := 0 }

/-- Function `lowpass_process`: one biquad step; output and new state. -/
def lowpass_process (lp : Lowpass) (x : ℝ) : ℝ × Lowpass :=
  let y : ℝ := lp.b0 * x + lp.b1 * lp.x1 + lp.b2 * lp.x2
      - lp.a1 * lp.y1 - lp.a2 * lp.y2
  (y, { lp with x2 := lp.x1, x1 := x, y2 := lp.y1, y1 := y })

/-- Iterate `lowpass_process` over the input sequence `u`:
state after `n` samples. -/
def lowpass_run (lp : Lowpass) (u : ℕ → ℝ) : ℕ → Lowpass
  | 0 => lp
  | n + 1 => (lowpass_process (lowpass_run lp u n) (u n)).2

/-- The input sequence as seen through the biquad's two-deep history:
two zero samples of pre-history, then the stream. -/
def padIn (u : ℕ → ℝ) : ℕ → ℝ
  | 0 => 0
  | 1 => 0
  | n + 2 => u n

/-- The explicit second-order recurrence computed by iterating
`lowpass_process` from zeroed history: `padIn`-indexed inputs, outputs
`y[n+2] = b0 x[n+2] + b1 x[n+1] + b2 x[n] - a1 y[n+1] - a2 y[n]`. -/
def biquadRec (b0 b1 b2 a1 a2 : ℝ) (u : ℕ → ℝ) : ℕ → ℝ
  | 0 => 0
  | 1 => 0
  | n + 2 =>
      b0 * padIn u (n + 2) + b1 * padIn u (n + 1) + b2 * padIn u n
        - a1 * biquadRec b0 b1 b2 a1 a2 u (n + 1)
        - a2 * biquadRec b0 b1 b2 a1 a2 u n

/-- Struct `dc_block_t`. -/
structure DcBlock where
  x_prev : ℝ
  y_prev : ℝ

def dc_block_init : DcBlock := ⟨0, 0⟩

/-- Function `dc_block_process`: `y[n] = x[n] - x[n-1] + 0.99*y[n-1]`. -/
def dc_block_process (dc : DcBlock) (x : ℝ) : ℝ × DcBlock :=
  let y : ℝ := x - dc.x_prev + 0.99 * dc.y_prev
  (y, ⟨x, y⟩)

/-- Struct `audio_agc_t`. -/
structure AudioAgc where
  level : ℝ
  target : ℝ
  attack : ℝ
  decay : ℝ
  warmup : ℤ

def audio_agc_init (target : ℝ) : AudioAgc :=
  { level := 0.0001, target := target, attack := 0.01, decay := 0.0001
    warmup := 0 }

/-- Function `audio_agc_process`: level tracking, floor, gain clamp. -/
def audio_agc_process (agc : AudioAgc) (x : ℝ) : ℝ × AudioAgc :=
  let mag : ℝ := |x|
  let level1 : ℝ :=
    if mag > agc.level then agc.level + agc.attack * (mag - agc.level)
    else agc.level + agc.decay * (mag - agc.level)
  let level2 : ℝ := if level1 < 0.0001 then 0.0001 else level1
  let gain0 : ℝ := agc.target / level2
  let gain1 : ℝ := if gain0 > 100 then 100 else gain0
  let gain : ℝ := if gain1 < 0.1 then 0.1 else gain1
  (x * gain, { agc with level := level2 })

/-- The two sequential range tests on `audio` before the `int16_t` cast. -/
def clampAudio (x : ℝ) : ℝ :=
  let x1 : ℝ := if x > 32767 then 32767 else x
  if x1 < -32768 then -32768 else x1

/-- The C cast `(int16_t)audio`: float-to-int truncation toward zero
(well-defined here because the value has been clamped into range). -/
def truncToInt (x : ℝ) : ℤ := if 0 ≤ x then ⌊x⌋ else ⌈x⌉

/-- The whole mutable DSP state of the program: the globals
`g_lowpass_i`, `g_lowpass_q`, `g_dc_block`, `g_audio_agc`,
`g_decim_counter`, `g_audio_out`/`g_audio_out_count`, plus `g_volume` and
the record of buffers flushed to the sinks. -/
structure DspState where
  lpI : Lowpass
  lpQ : Lowpass
  dc : DcBlock
  agc : AudioAgc
  decim : ℕ
  outBuf : List ℤ
  flushed : List (List ℤ)
  vol : ℝ

/-- One iteration of the loop body of `process_iq_samples`. -/
def processSample (st : DspState) (iq : ℤ × ℤ) : DspState :=
  let pI := lowpass_process st.lpI (iq.1 : ℝ)
  let pQ := lowpass_process st.lpQ (iq.2 : ℝ)
  let magnitude : ℝ := Real.sqrt (pI.1 * pI.1 + pQ.1 * pQ.1)
  let pDc := dc_block_process st.dc magnitude
  let pAgc := audio_agc_process st.agc pDc.1
  let d : ℕ := st.decim + 1
  if DECIMATION_FACTOR ≤ d then
    let audio : ℝ := pAgc.1 * st.vol
    let v : ℤ := truncToInt (clampAudio audio)
    let buf : List ℤ := st.outBuf ++ [v]
    if AUDIO_BUFFER_SIZE ≤ buf.length then
      { st with lpI := pI.2, lpQ := pQ.2, dc := pDc.2, agc := pAgc.2
                decim := 0, outBuf := [], flushed := st.flushed ++ [buf] }
    else
      { st with lpI := pI.2, lpQ := pQ.2, dc := pDc.2, agc := pAgc.2
                decim := 0, outBuf := buf }
  else
    { st with lpI := pI.2, lpQ := pQ.2, dc := pDc.2, agc := pAgc.2
              decim := d }

/-- Function `process_iq_samples`: fold the pipeline over a frame. -/
def process_iq_samples (st : DspState) (xs : List (ℤ × ℤ)) :
    DspState :=
  xs.foldl processSample st

/-- Total number of samples ever emitted into the accumulation buffer
(those still in it plus those already flushed to the sinks). -/
def emittedTotal (st : DspState) : ℕ :=
  (st.flushed.map List.length).sum + st.outBuf.length

/-- The DSP state `main` starts the streaming loop with (volume is the
`-v` argument, default 50). -/
def initDsp (vol : ℝ) : DspState :=
  { lpI := lowpass_init 3000 2000000
    lpQ := lowpass_init 3000 2000000
    dc := dc_block_init
    agc := audio_agc_init 5000
    decim := 0
    outBuf := []
    flushed := []
    vol := vol }

end DspDefs

/-! ### Protocol demultiplexer and session orchestrator (`main`) -/

/-- Decoded `iq_stream_header_t`. -/
structure StreamHeader where
  magic : ℕ
  version : ℕ
  sample_rate : ℕ
  sample_format : ℕ
  center_freq_lo : ℕ
  center_freq_hi : ℕ
  gain_reduction : ℕ
  lna_state : ℕ
  deriving DecidableEq

/-- Function `read_stream_header`: read 32 bytes, check magic and sample
format; any failure aborts the session before streaming. -/
def readStreamHeader (s : List ℕ) : Option (StreamHeader × List ℕ) :=
  match recvBytes s STREAM_HEADER_SIZE with
  | none => none
  | some (hb, rest) =>
    let h : StreamHeader :=
      { magic := u32At hb 0, version := u32At hb 4
        sample_rate := u32At hb 8, sample_format := u32At hb 12
        center_freq_lo := u32At hb 16, center_freq_hi := u32At hb 20
        gain_reduction := u32At hb 24, lna_state := u32At hb 28 }
    if h.magic ≠ IQ_MAGIC_HEADER then none
    else if h.sample_format ≠ IQ_FORMAT_S16 then none
    else some (h, rest)

/-- Value of `size_t data_size = frame_hdr.num_samples * 2 * sizeof(int16_t)`
as the C computes it: `num_samples * 2` is a `uint32_t * int` product that
wraps modulo `2 ^ 32` before the exact widening multiply by
`sizeof(int16_t)`. -/
def dataSizeBytes (num_samples : ℕ) : ℕ := num_samples * 2 % 2 ^ 32 * 2

/-- Reinterpret the low 32 bits of a value as a two's-complement 32-bit
`int` (the C cast `(int)` applied to a `size_t`). -/
def toInt32 (w : ℕ) : ℤ :=
  if w % 2 ^ 32 < 2 ^ 31 then ((w % 2 ^ 32 : ℕ) : ℤ)
  else ((w % 2 ^ 32 : ℕ) : ℤ) - 2 ^ 32

/-- The length argument `(int)data_size` handed to `recv_full` for a data
frame's payload. -/
def recvLen (num_samples : ℕ) : ℤ := toInt32 (dataSizeBytes num_samples)

/-- Bytes actually requested into the frame buffer: with a non-positive
`int` length, `recv_full`'s `while (total < len)` body never runs and no
byte is copied. -/
def recvReqBytes (num_samples : ℕ) : ℕ := (recvLen num_samples).toNat

/-- Capacity in bytes of the heap frame buffer:
`malloc(16384 * 2 * sizeof(int16_t))`. -/
def frameBufferBytes : ℕ := 16384 * 2 * 2

/-- Reason the streaming loop stopped (which `break` was taken). -/
inductive ExitReason where
  | connLost
  | dataFail
  | metaFail
  | unknownMagic
  deriving DecidableEq

/-- Outcome of one iteration of the `while (g_running)` loop: either a
`break` or a continuation carrying the remaining byte stream, an optional
metadata report `(freq, gain)` as computed by the `LOG("[META] ...")` line,
and the number of I/Q samples handed to `process_iq_samples`. -/
inductive Step where
  | halt : ExitReason → Step
  | next : List ℕ → Option (ℕ × ℕ) → ℕ → Step
  deriving DecidableEq

/-- One iteration of the streaming loop body, returning the step outcome
and the DSP state afterwards.  On a DATA frame the receive length is the
wrapped product truncated through the `int` cast (`recvLen`): a negative
length makes `recv_full` return `0 != (int)data_size`, taking the
`Data read failed` break, while a zero or wrapped-short length receives
only that many bytes (past them the C reads indeterminate stale buffer
contents, which a byte-stream model cannot represent; the decoded payload
covers the bytes actually received).  On a META frame the code overlays the
16 common-header bytes and the 16 additionally received bytes into one
`iq_metadata_update_t`, so the decoded struct is read from their
concatenation; `center_freq_lo` sits at byte offset 12, `center_freq_hi`
at 16 and `gain_reduction` at 20, and the reported frequency is
`((uint64_t)hi << 32) | lo`. -/
noncomputable def loopStep (s : List ℕ) (dsp : DspState) : Step × DspState :=
  match recvBytes s FRAME_HDR_SIZE with
  | none => (.halt .connLost, dsp)
  | some (hdrB, rest) =>
    let magic := u32At hdrB 0
    let num_samples := u32At hdrB 8
    if magic = IQ_MAGIC_DATA then
      if recvLen num_samples < 0 then (.halt .dataFail, dsp)
      else
        match recvBytes rest (recvReqBytes num_samples) with
        | none => (.halt .dataFail, dsp)
        | some (payload, rest2) =>
          (.next rest2 none num_samples,
           process_iq_samples dsp (decodeSamples payload))
    else if magic = IQ_MAGIC_META then
      match recvBytes rest (META_SIZE - FRAME_HDR_SIZE) with
      | none => (.halt .metaFail, dsp)
      | some (extra, rest2) =>
        let metaB := hdrB ++ extra
        let freq := Nat.lor (u32At metaB 16 <<< 32) (u32At metaB 12)
        (.next rest2 (some (freq, u32At metaB 20)) 0, dsp)
    else (.halt .unknownMagic, dsp)

/-- Result of running the streaming loop to completion. -/
structure LoopRes where
  reason : Option ExitReason
  dsp : DspState
  samples : ℕ
  metas : List (ℕ × ℕ)

/-- The streaming loop, with fuel (`reason = none` means the fuel ran out,
which never happens when the fuel exceeds the stream length). -/
noncomputable def sessionLoop : ℕ → List ℕ → DspState → LoopRes
  | 0, _, dsp => ⟨none, dsp, 0, []⟩
  | fuel + 1, s, dsp =>
    match loopStep s dsp with
    | (.halt r, d) => ⟨some r, d, 0, []⟩
    | (.next rest rep k, d) =>
      let L := sessionLoop fuel rest d
      ⟨L.reason, L.dsp, k + L.samples, rep.toList ++ L.metas⟩

/-- Result of a whole session: the process exit status, the loop's exit
reason (`none` if the loop was never entered), the final DSP state, the
total sample count processed, and the metadata reports. -/
structure SessionRes where
  exit : ℕ
  reason : Option ExitReason
  dsp : DspState
  samples : ℕ
  metas : List (ℕ × ℕ)

/-- Function `main` from the point the connection is up: read the stream
header (failure → exit status 1 before streaming); then run the streaming
loop; after the loop breaks, clean up and `return 0`. -/
noncomputable def runSession (s : List ℕ) (dsp : DspState) : SessionRes :=
  match readStreamHeader s with
  | none => ⟨1, none, dsp, 0, []⟩
  | some (_, rest) =>
    let L := sessionLoop (rest.length + 1) rest dsp
    ⟨0, L.reason, L.dsp, L.samples, L.metas⟩

/-- Function `main` including connection: `connect_to_server` failure
exits with status 1 before any protocol exchange. -/
noncomputable def runFull (connectOk : Bool) (s : List ℕ) (dsp : DspState) :
    SessionRes :=
  if connectOk then runSession s dsp else ⟨1, none, dsp, 0, []⟩

/-- Every sample stored in the accumulation buffer or flushed to the sinks
lies in the 16-bit output range. -/
def InRange (st : DspState) : Prop :=
  (∀ v ∈ st.outBuf, -32768 ≤ v ∧ v ≤ 32767) ∧
  (∀ l ∈ st.flushed, ∀ v ∈ l, -32768 ≤ v ∧ v ≤ 32767)

/-- A valid 32-byte stream header (magic `PHXI`, rate 2000000, format S16). -/
def headerOkBytes : List ℕ :=
  [0x49, 0x58, 0x48, 0x50, 0, 0, 0, 0, 0x80, 0x84, 0x1E, 0, 1, 0, 0, 0] ++
    List.replicate 16 0

/-! ### Theorems: Frame Reader (`recv_full`) -/

lemma recvFullGo_spec (recvs : ℕ → Option ℕ) (run : ℕ → Bool) (len : ℕ) :
    ∀ i total,
      (((recvFullGo recvs run len i total).1 = (len : ℤ)) ↔
        ((recvFullGo recvs run len i total).2 = len)) ∧
      ((recvFullGo recvs run len i total).1 = -1 ∨
        (recvFullGo recvs run len i total).1 =
          ((recvFullGo recvs run len i total).2 : ℤ)) := by
  intro i total
  induction i, total using recvFullGo.induct recvs run len with
  | case1 i total hcond hr =>
    rw [recvFullGo, dif_pos hcond, hr]
    refine ⟨⟨fun h => ?_, fun h => ?_⟩, Or.inl rfl⟩ <;> simp_all
  | case2 i total hcond hr =>
    rw [recvFullGo, dif_pos hcond, hr]
    refine ⟨⟨fun h => ?_, fun h => ?_⟩, Or.inl rfl⟩ <;> simp_all
  | case3 i total hcond k hr ih =>
    rw [recvFullGo, dif_pos hcond, hr]
    exact ih
  | case4 i total hcond =>
    rw [recvFullGo, dif_neg hcond]
    refine ⟨?_, Or.inr rfl⟩
    show (total : ℤ) = (len : ℤ) ↔ total = len
    exact Int.natCast_inj

/-- Claim C5: `recv_full` on a destination of `N` bytes returns the success
value `N` if and only if exactly `N` bytes were copied from the socket, and
otherwise (transport failure, EOF, or shutdown observed between attempts)
returns a non-success value, namely `-1` or the short byte count. -/
theorem recv_full_success_iff (recvs : ℕ → Option ℕ) (run : ℕ → Bool)
    (len : ℕ) :
    (((recv_full recvs run len).1 = (len : ℤ)) ↔
      ((recv_full recvs run len).2 = len)) ∧
    ((recv_full recvs run len).1 = -1 ∨
      (recv_full recvs run len).1 = ((recv_full recvs run len).2 : ℤ)) :=
  recvFullGo_spec recvs run len 0 0

/-! ### Theorems: AGC level floor -/

/-- Claim C6: the gain-control level estimate is strictly positive and at
least the floor `0.0001` after `audio_agc_init` and after every
`audio_agc_process` call, so the gain computation `target / level` never
divides by zero. -/
theorem agc_level_floored :
    (∀ target : ℝ, 0.0001 ≤ (audio_agc_init target).level ∧
      0 < (audio_agc_init target).level) ∧
    (∀ (agc : AudioAgc) (x : ℝ),
      0.0001 ≤ ((audio_agc_process agc x).2).level ∧
      0 < ((audio_agc_process agc x).2).level) := by
  constructor
  · intro target
    constructor
    · simp [audio_agc_init]
    · norm_num [audio_agc_init]
  · intro agc x
    have h : ((audio_agc_process agc x).2).level =
        (if (if |x| > agc.level
              then agc.level + agc.attack * (|x| - agc.level)
              else agc.level + agc.decay * (|x| - agc.level)) < 0.0001
         then (0.0001 : ℝ)
         else (if |x| > agc.level
              then agc.level + agc.attack * (|x| - agc.level)
              else agc.level + agc.decay * (|x| - agc.level))) := rfl
    rw [h]
    generalize (if |x| > agc.level
        then agc.level + agc.attack * (|x| - agc.level)
        else agc.level + agc.decay * (|x| - agc.level)) = L
    split
    · norm_num
    · rename_i hge
      push_neg at hge
      refine ⟨hge, lt_of_lt_of_le ?_ hge⟩
      norm_num

/-! ### Theorems: decimation counting (DSP chain) -/

lemma DECIMATION_FACTOR_eq : DECIMATION_FACTOR = 42 := rfl

lemma AUDIO_BUFFER_SIZE_eq : AUDIO_BUFFER_SIZE = 4096 := rfl

lemma processSample_no_emit (st : DspState) (x : ℤ × ℤ)
    (h : st.decim + 1 < DECIMATION_FACTOR) :
    (processSample st x).decim = st.decim + 1 ∧
    (processSample st x).outBuf = st.outBuf ∧
    (processSample st x).flushed = st.flushed := by
  unfold processSample
  rw [if_neg (by omega)]
  exact ⟨rfl, rfl, rfl⟩

lemma processSample_emit_noflush (st : DspState) (x : ℤ × ℤ)
    (h : DECIMATION_FACTOR ≤ st.decim + 1)
    (hf : st.outBuf.length + 1 < AUDIO_BUFFER_SIZE) :
    (processSample st x).decim = 0 ∧
    (processSample st x).outBuf.length = st.outBuf.length + 1 ∧
    (processSample st x).flushed = st.flushed := by
  unfold processSample
  rw [if_pos (by omega), if_neg (by simp; omega)]
  simp

lemma processSample_emit_flush (st : DspState) (x : ℤ × ℤ)
    (h : DECIMATION_FACTOR ≤ st.decim + 1)
    (hf : AUDIO_BUFFER_SIZE ≤ st.outBuf.length + 1) :
    (processSample st x).decim = 0 ∧
    (processSample st x).outBuf = [] ∧
    ((processSample st x).flushed.map List.length).sum =
      (st.flushed.map List.length).sum + (st.outBuf.length + 1) := by
  unfold processSample
  rw [if_pos (by omega), if_pos (by simp; omega)]
  simp

/-- Each sample either just advances the counter or emits exactly one
sample into the accumulation buffer. -/
lemma processSample_emittedTotal (st : DspState) (x : ℤ × ℤ) :
    emittedTotal (processSample st x) =
      emittedTotal st + (if DECIMATION_FACTOR ≤ st.decim + 1 then 1 else 0) := by
  by_cases h : DECIMATION_FACTOR ≤ st.decim + 1
  · by_cases hf : AUDIO_BUFFER_SIZE ≤ st.outBuf.length + 1
    · obtain ⟨_, h2, h3⟩ := processSample_emit_flush st x h hf
      simp [emittedTotal, h, h2, h3]
      omega
    · obtain ⟨_, h2, h3⟩ := processSample_emit_noflush st x h (by omega)
      simp [emittedTotal, h, h2, h3]
      omega
  · obtain ⟨_, h2, h3⟩ := processSample_no_emit st x (by omega)
    simp [emittedTotal, h, h2, h3]

lemma processSample_decim_zero (st : DspState) (x : ℤ × ℤ)
    (h : DECIMATION_FACTOR ≤ st.decim + 1) :
    (processSample st x).decim = 0 := by
  by_cases hf : AUDIO_BUFFER_SIZE ≤ st.outBuf.length + 1
  · exact (processSample_emit_flush st x h hf).1
  · exact (processSample_emit_noflush st x h (by omega)).1

lemma process_count (xs : List (ℤ × ℤ)) : ∀ st : DspState,
    st.decim < DECIMATION_FACTOR →
    emittedTotal (process_iq_samples st xs) =
      emittedTotal st + (st.decim + xs.length) / DECIMATION_FACTOR ∧
    (process_iq_samples st xs).decim =
      (st.decim + xs.length) % DECIMATION_FACTOR := by
  induction xs with
  | nil =>
    intro st h
    simp [process_iq_samples, Nat.div_eq_of_lt h, Nat.mod_eq_of_lt h]
  | cons x xs ih =>
    intro st h
    have hstep : process_iq_samples st (x :: xs) =
        process_iq_samples (processSample st x) xs := rfl
    have hemit := processSample_emittedTotal st x
    rw [DECIMATION_FACTOR_eq] at h
    by_cases hd : (42 : ℕ) ≤ st.decim + 1
    · have hdec : (processSample st x).decim = 0 :=
        processSample_decim_zero st x (by rw [DECIMATION_FACTOR_eq]; omega)
      rw [if_pos (by rw [DECIMATION_FACTOR_eq]; omega)] at hemit
      obtain ⟨ih1, ih2⟩ := ih (processSample st x)
        (by rw [hdec, DECIMATION_FACTOR_eq]; omega)
      rw [hdec] at ih1 ih2
      rw [DECIMATION_FACTOR_eq] at ih1 ih2
      rw [hstep, DECIMATION_FACTOR_eq]
      simp only [List.length_cons]
      constructor
      · rw [ih1, hemit]; omega
      · rw [ih2]; omega
    · have hdec : (processSample st x).decim = st.decim + 1 :=
        (processSample_no_emit st x (by rw [DECIMATION_FACTOR_eq]; omega)).1
      rw [if_neg (by rw [DECIMATION_FACTOR_eq]; omega)] at hemit
      obtain ⟨ih1, ih2⟩ := ih (processSample st x)
        (by rw [hdec, DECIMATION_FACTOR_eq]; omega)
      rw [hdec] at ih1 ih2
      rw [DECIMATION_FACTOR_eq] at ih1 ih2
      rw [hstep, DECIMATION_FACTOR_eq]
      simp only [List.length_cons]
      constructor
      · rw [ih1, hemit]; omega
      · rw [ih2]; omega

/-- As long as the accumulation buffer cannot reach the flush threshold,
no flush happens and emitted samples accumulate in the buffer. -/
lemma process_noflush (xs : List (ℤ × ℤ)) : ∀ st : DspState,
    st.decim < DECIMATION_FACTOR →
    st.outBuf.length + (st.decim + xs.length) / DECIMATION_FACTOR
      < AUDIO_BUFFER_SIZE →
    (process_iq_samples st xs).flushed = st.flushed ∧
    (process_iq_samples st xs).outBuf.length =
      st.outBuf.length + (st.decim + xs.length) / DECIMATION_FACTOR := by
  induction xs with
  | nil =>
    intro st h _
    simp [process_iq_samples, Nat.div_eq_of_lt h]
  | cons x xs ih =>
    intro st h hbuf
    have hstep : process_iq_samples st (x :: xs) =
        process_iq_samples (processSample st x) xs := rfl
    rw [DECIMATION_FACTOR_eq] at h
    rw [DECIMATION_FACTOR_eq, AUDIO_BUFFER_SIZE_eq] at hbuf
    simp only [List.length_cons] at hbuf
    rw [hstep, DECIMATION_FACTOR_eq]
    simp only [List.length_cons]
    by_cases hd : (42 : ℕ) ≤ st.decim + 1
    · obtain ⟨h0, h1, h2⟩ := processSample_emit_noflush st x
        (by rw [DECIMATION_FACTOR_eq]; omega)
        (by rw [AUDIO_BUFFER_SIZE_eq]; omega)
      obtain ⟨ih1, ih2⟩ := ih (processSample st x)
        (by rw [h0, DECIMATION_FACTOR_eq]; omega)
        (by rw [h0, h1, DECIMATION_FACTOR_eq, AUDIO_BUFFER_SIZE_eq]; omega)
      rw [h0] at ih2
      rw [DECIMATION_FACTOR_eq] at ih2
      rw [ih1, ih2, h1, h2]
      exact ⟨rfl, by omega⟩
    · obtain ⟨h0, h1, h2⟩ := processSample_no_emit st x
        (by rw [DECIMATION_FACTOR_eq]; omega)
      obtain ⟨ih1, ih2⟩ := ih (processSample st x)
        (by rw [h0, DECIMATION_FACTOR_eq]; omega)
        (by rw [h0, h1, DECIMATION_FACTOR_eq, AUDIO_BUFFER_SIZE_eq]; omega)
      rw [h0] at ih2
      rw [DECIMATION_FACTOR_eq] at ih2
      rw [ih1, ih2, h1, h2]
      exact ⟨rfl, by omega⟩

/-- Claim C3: with the decimation counter at zero, processing `N` input
samples emits exactly `⌊N / 42⌋` samples into the accumulation buffer,
independently of how the samples are partitioned into data frames; in
particular one 1000-sample frame starting from an empty buffer emits
exactly 23 samples, below the 4096-sample flush threshold, so nothing is
flushed to the sinks. -/
theorem decimation_count (st : DspState) (xs ys : List (ℤ × ℤ))
    (h0 : st.decim = 0) :
    (emittedTotal (process_iq_samples st xs) =
      emittedTotal st + xs.length / DECIMATION_FACTOR) ∧
    (process_iq_samples st (xs ++ ys) =
      process_iq_samples (process_iq_samples st xs) ys) ∧
    (xs.length = 1000 → st.outBuf = [] →
      emittedTotal (process_iq_samples st xs) = emittedTotal st + 23 ∧
      (process_iq_samples st xs).flushed = st.flushed ∧
      (process_iq_samples st xs).outBuf.length = 23) := by
  have hlt : st.decim < DECIMATION_FACTOR := by
    rw [h0, DECIMATION_FACTOR_eq]; omega
  refine ⟨?_, ?_, ?_⟩
  · have h := (process_count xs st hlt).1
    rw [h, h0, Nat.zero_add]
  · unfold process_iq_samples
    exact List.foldl_append _ _ _ _
  · intro hlen hbuf
    have h23 : (st.decim + xs.length) / DECIMATION_FACTOR = 23 := by
      rw [h0, hlen, DECIMATION_FACTOR_eq]
    obtain ⟨hf1, hf2⟩ := process_noflush xs st hlt
      (by rw [h23, hbuf, AUDIO_BUFFER_SIZE_eq]; simp)
    refine ⟨?_, hf1, ?_⟩
    · rw [(process_count xs st hlt).1, h23]
    · rw [hf2, h23, hbuf]
      rfl

/-! ### Theorems: output sample range (scaling and clipping) -/

lemma clampAudio_range (x : ℝ) :
    -32768 ≤ clampAudio x ∧ clampAudio x ≤ 32767 := by
  unfold clampAudio
  dsimp only
  by_cases h1 : x > 32767
  · rw [if_pos h1]
    norm_num
  · rw [if_neg h1]
    push_neg at h1
    by_cases h2 : x < -32768
    · rw [if_pos h2]
      norm_num
    · rw [if_neg h2]
      push_neg at h2
      exact ⟨h2, h1⟩

lemma truncToInt_range (x : ℝ) (h1 : -32768 ≤ x) (h2 : x ≤ 32767) :
    -32768 ≤ truncToInt x ∧ truncToInt x ≤ 32767 := by
  unfold truncToInt
  split
  · rename_i hx
    constructor
    · have : (0 : ℤ) ≤ ⌊x⌋ := Int.floor_nonneg.2 hx
      omega
    · have : (⌊x⌋ : ℝ) ≤ 32767 := le_trans (Int.floor_le x) h2
      exact_mod_cast this
  · rename_i hx
    push_neg at hx
    constructor
    · have : (-32768 : ℝ) ≤ (⌈x⌉ : ℝ) := le_trans h1 (Int.le_ceil x)
      exact_mod_cast this
    · have hc : (⌈x⌉ : ℝ) ≤ ⌈(0 : ℝ)⌉ := by
        exact_mod_cast Int.ceil_le_ceil (le_of_lt hx)
      have : (⌈x⌉ : ℝ) ≤ 0 := by simpa using hc
      have : (⌈x⌉ : ℤ) ≤ 0 := by exact_mod_cast this
      omega

lemma emitted_value_range (x : ℝ) :
    -32768 ≤ truncToInt (clampAudio x) ∧ truncToInt (clampAudio x) ≤ 32767 :=
  truncToInt_range _ (clampAudio_range x).1 (clampAudio_range x).2

lemma processSample_InRange (st : DspState) (x : ℤ × ℤ) (h : InRange st) :
    InRange (processSample st x) := by
  obtain ⟨hbuf, hfl⟩ := h
  unfold processSample
  dsimp only
  split
  · split
    · constructor
      · intro v hv
        simp at hv
      · intro l hl v hv
        rcases List.mem_append.1 hl with hl1 | hl2
        · exact hfl l hl1 v hv
        · have hleq : l = st.outBuf ++ [truncToInt (clampAudio _)] :=
            List.mem_singleton.1 hl2
          subst hleq
          rcases List.mem_append.1 hv with hv1 | hv2
          · exact hbuf v hv1
          · rw [List.mem_singleton.1 hv2]
            exact emitted_value_range _
    · constructor
      · intro v hv
        rcases List.mem_append.1 hv with hv1 | hv2
        · exact hbuf v hv1
        · rw [List.mem_singleton.1 hv2]
          exact emitted_value_range _
      · exact hfl
  · exact ⟨hbuf, hfl⟩

/-- Claim C9: every sample emitted into the accumulation buffer is the
post-AGC decimated sample scaled by the user volume and clamped, and every
stored value lies in `[-32768, 32767]`. -/
theorem emitted_in_range :
    (∀ x : ℝ,
      -32768 ≤ truncToInt (clampAudio x) ∧ truncToInt (clampAudio x) ≤ 32767) ∧
    (∀ (st : DspState) (xs : List (ℤ × ℤ)),
      InRange st → InRange (process_iq_samples st xs)) := by
  refine ⟨emitted_value_range, ?_⟩
  intro st xs
  induction xs generalizing st with
  | nil => exact fun h => h
  | cons x xs ih =>
    intro h
    exact ih (processSample st x) (processSample_InRange st x h)

/-- Witness for `emitted_in_range`: the initial DSP state is in range and
stays in range across a concrete frame. -/
theorem emitted_in_range_witness :
    InRange (process_iq_samples (initDsp 50) [((1000 : ℤ), (0 : ℤ))]) := by
  apply emitted_in_range.2
  constructor
  · intro v hv
    simp [initDsp] at hv
  · intro l hl
    simp [initDsp] at hl

/-! ### Protocol-layer helper lemmas -/

lemma recvBytes_eq_some {s : List ℕ} {n : ℕ} {a b : List ℕ}
    (h : recvBytes s n = some (a, b)) :
    a = s.take n ∧ b = s.drop n ∧ n ≤ s.length := by
  unfold recvBytes at h
  by_cases hc : n ≤ s.length
  · rw [if_pos hc] at h
    obtain ⟨h1, h2⟩ := Prod.mk.injEq .. ▸ Option.some.inj h
    exact ⟨h1.symm, h2.symm, hc⟩
  · rw [if_neg hc] at h
    exact absurd h (by simp)

lemma recvBytes_of_le {s : List ℕ} {n : ℕ} (h : n ≤ s.length) :
    recvBytes s n = some (s.take n, s.drop n) := by
  unfold recvBytes
  rw [if_pos h]

lemma u32At_take {s : List ℕ} {n off : ℕ} (h : off + 4 ≤ n) :
    u32At (s.take n) off = u32At s off := by
  unfold u32At
  rw [List.drop_take, List.take_take,
    Nat.min_eq_left (show 4 ≤ n - off by omega)]

/-! ### Theorems: metadata frame handling (C2, C8) -/

/-- Claim C2: a metadata frame in the streaming state causes exactly
`META_SIZE - FRAME_HDR_SIZE = 16` additional bytes to be read after the
16-byte common header (the continuation stream is `s.drop 32`), and the
reported frequency and gain decode the wire bytes of the metadata frame:
`center_freq_lo` at wire offset 12, `center_freq_hi` at 16 (combined as
`(hi <<< 32) ||| lo`), and `gain_reduction` at offset 20. -/
theorem meta_frame_framing (s : List ℕ) (dsp : DspState)
    (hlen : META_SIZE ≤ s.length) (hmagic : u32At s 0 = IQ_MAGIC_META) :
    (loopStep s dsp).1 = Step.next (s.drop META_SIZE)
      (some (Nat.lor (u32At s 16 <<< 32) (u32At s 12), u32At s 20)) 0 := by
  unfold META_SIZE at hlen
  have h16 : FRAME_HDR_SIZE ≤ s.length := by unfold FRAME_HDR_SIZE; omega
  have e1 := recvBytes_of_le h16
  have hmagic16 : u32At (s.take FRAME_HDR_SIZE) 0 = IQ_MAGIC_META := by
    rw [u32At_take (by unfold FRAME_HDR_SIZE; omega)]
    exact hmagic
  have hnotdata : ¬(u32At (s.take FRAME_HDR_SIZE) 0 = IQ_MAGIC_DATA) := by
    rw [hmagic16]
    unfold IQ_MAGIC_META IQ_MAGIC_DATA
    omega
  have h16d : META_SIZE - FRAME_HDR_SIZE ≤ (s.drop FRAME_HDR_SIZE).length := by
    unfold META_SIZE FRAME_HDR_SIZE
    simp
    omega
  have e2 := recvBytes_of_le h16d
  have hcat : s.take FRAME_HDR_SIZE ++
      (s.drop FRAME_HDR_SIZE).take (META_SIZE - FRAME_HDR_SIZE) =
      s.take META_SIZE := by
    unfold META_SIZE FRAME_HDR_SIZE
    exact (List.take_add s 16 16).symm
  have hdd : (s.drop FRAME_HDR_SIZE).drop (META_SIZE - FRAME_HDR_SIZE) =
      s.drop META_SIZE := by
    unfold META_SIZE FRAME_HDR_SIZE
    rw [List.drop_drop]
  have r12 : u32At (s.take META_SIZE) 12 = u32At s 12 := u32At_take (by decide)
  have r16 : u32At (s.take META_SIZE) 16 = u32At s 16 := u32At_take (by decide)
  have r20 : u32At (s.take META_SIZE) 20 = u32At s 20 := u32At_take (by decide)
  unfold loopStep
  rw [e1]
  simp only [hmagic16, e2, hcat, hdd]
  rw [if_neg (show ¬(IQ_MAGIC_META = IQ_MAGIC_DATA) from by decide)]
  first
  | rw [if_pos trivial]
  | rw [if_pos (show IQ_MAGIC_META = IQ_MAGIC_META from rfl)]
  rw [r12, r16, r20]

/-- Witness for `meta_frame_framing`: a concrete 32-byte META frame. -/
theorem meta_frame_framing_witness :
    (loopStep
      ([0x41, 0x54, 0x45, 0x4D, 0, 0, 0, 0, 0, 0, 0, 0,
        0x78, 0x56, 0x34, 0x12, 0x01, 0, 0, 0, 0x0A, 0, 0, 0,
        0, 0, 0, 0, 0, 0, 0, 0]) (initDsp 50)).1 =
      Step.next [] (some (0x112345678, 10)) 0 := by
  have h := meta_frame_framing
    ([0x41, 0x54, 0x45, 0x4D, 0, 0, 0, 0, 0, 0, 0, 0,
      0x78, 0x56, 0x34, 0x12, 0x01, 0, 0, 0, 0x0A, 0, 0, 0,
      0, 0, 0, 0, 0, 0, 0, 0]) (initDsp 50) (by decide) (by decide)
  rw [h]
  decide

/-- Claim C8: handling a META frame leaves the entire DSP state (filter
histories, DC blocker, AGC level, decimation counter, accumulation buffer
and its fill count) unchanged, whether or not the metadata payload read
succeeds. -/
theorem meta_frame_no_dsp_effect (s : List ℕ) (dsp : DspState)
    (hlen : FRAME_HDR_SIZE ≤ s.length) (hmagic : u32At s 0 = IQ_MAGIC_META) :
    (loopStep s dsp).2 = dsp := by
  have e1 := recvBytes_of_le hlen
  have hmagic16 : u32At (s.take FRAME_HDR_SIZE) 0 = IQ_MAGIC_META := by
    rw [u32At_take (by unfold FRAME_HDR_SIZE; omega)]
    exact hmagic
  have hnotdata : ¬(u32At (s.take FRAME_HDR_SIZE) 0 = IQ_MAGIC_DATA) := by
    rw [hmagic16]
    unfold IQ_MAGIC_META IQ_MAGIC_DATA
    omega
  unfold loopStep
  rw [e1]
  simp only [hmagic16]
  rw [if_neg (show ¬(IQ_MAGIC_META = IQ_MAGIC_DATA) from by decide)]
  first
  | rw [if_pos trivial]
  | rw [if_pos (show IQ_MAGIC_META = IQ_MAGIC_META from rfl)]
  cases h2 : recvBytes (s.drop FRAME_HDR_SIZE) (META_SIZE - FRAME_HDR_SIZE) with
  | none => rfl
  | some pr => rfl

/-- Witness for `meta_frame_no_dsp_effect`: concrete META header, short
payload (the DSP state is untouched either way). -/
theorem meta_frame_no_dsp_effect_witness :
    (loopStep
      [0x41, 0x54, 0x45, 0x4D, 0, 0, 0, 0, 0, 0, 0, 0, 0, 0, 0, 0]
      (initDsp 50)).2 = initDsp 50 :=
  meta_frame_no_dsp_effect _ _ (by decide) (by decide)

/-! ### Theorems: stream-header rejection (C4) -/

lemma readStreamHeader_none_badmagic {s : List ℕ}
    (h : u32At s 0 ≠ IQ_MAGIC_HEADER) : readStreamHeader s = none := by
  unfold readStreamHeader
  by_cases hc : STREAM_HEADER_SIZE ≤ s.length
  · rw [recvBytes_of_le hc]
    have hm : u32At (s.take STREAM_HEADER_SIZE) 0 = u32At s 0 :=
      u32At_take (by decide)
    simp only [hm]
    rw [if_pos h]
  · unfold recvBytes
    rw [if_neg hc]

lemma readStreamHeader_none_badformat {s : List ℕ}
    (hf : u32At s 12 ≠ IQ_FORMAT_S16) : readStreamHeader s = none := by
  unfold readStreamHeader
  by_cases hc : STREAM_HEADER_SIZE ≤ s.length
  · rw [recvBytes_of_le hc]
    have hm : u32At (s.take STREAM_HEADER_SIZE) 0 = u32At s 0 :=
      u32At_take (by decide)
    have hfm : u32At (s.take STREAM_HEADER_SIZE) 12 = u32At s 12 :=
      u32At_take (by decide)
    simp only [hm, hfm]
    by_cases hmg : u32At s 0 ≠ IQ_MAGIC_HEADER
    · rw [if_pos hmg]
    · rw [if_neg hmg, if_pos hf]
  · unfold recvBytes
    rw [if_neg hc]

lemma runFull_headerFail {s : List ℕ} (dsp : DspState)
    (h : readStreamHeader s = none) :
    runFull true s dsp = ⟨1, none, dsp, 0, []⟩ := by
  unfold runFull runSession
  rw [if_pos rfl, h]

/-- Claim C4: a stream header whose sample-encoding field is not the
supported 16-bit-integer value terminates the session before streaming
(exit status 1, no data frame processed, no metadata reports, DSP state
untouched); the same holds when the header magic mismatches. -/
theorem header_rejection (s : List ℕ) (dsp : DspState) :
    (u32At s 12 ≠ IQ_FORMAT_S16 →
      runFull true s dsp = ⟨1, none, dsp, 0, []⟩) ∧
    (u32At s 0 ≠ IQ_MAGIC_HEADER →
      runFull true s dsp = ⟨1, none, dsp, 0, []⟩) := by
  constructor
  · intro hf
    exact runFull_headerFail dsp (readStreamHeader_none_badformat hf)
  · intro hm
    exact runFull_headerFail dsp (readStreamHeader_none_badmagic hm)

/-- Witness for `header_rejection`: a header with format 2 and a header
with a corrupted magic are both rejected with status 1 and no samples. -/
theorem header_rejection_witness :
    (runFull true
      ([0x49, 0x58, 0x48, 0x50, 0, 0, 0, 0, 0x80, 0x84, 0x1E, 0,
        2, 0, 0, 0] ++ List.replicate 16 0) (initDsp 50) =
      ⟨1, none, initDsp 50, 0, []⟩) ∧
    (runFull true (List.replicate 32 0) (initDsp 50) =
      ⟨1, none, initDsp 50, 0, []⟩) :=
  ⟨(header_rejection _ (initDsp 50)).1 (by decide),
   (header_rejection _ (initDsp 50)).2 (by decide)⟩

/-! ### Theorems: unchecked data-frame size (C10) -/

/-- Counterexample to claim C10 as stated: at `num_samples = 2 ^ 30` —
far above 16384 — the wrapped product `(int)(num_samples * 2 *
sizeof(int16_t))` is 0, so the receive requests zero bytes, nothing
targets memory past the 65536-byte buffer, and the loop proceeds without
consuming any payload byte. -/
theorem frame_size_wrap_counterexample :
    16384 < (2 : ℕ) ^ 30 ∧
    recvLen (2 ^ 30) = 0 ∧
    recvReqBytes (2 ^ 30) ≤ frameBufferBytes ∧
    (loopStep
      [0x51, 0x44, 0x51, 0x49, 0, 0, 0, 0, 0, 0, 0, 0x40, 0, 0, 0, 0]
      (initDsp 50)).1 = Step.next [] none (2 ^ 30) := by
  refine ⟨by norm_num, by decide, by decide, ?_⟩
  decide

/-- Claim C10 (amended): the data-frame payload length is the `uint32`
product `num_samples * 2 * sizeof(int16_t)` truncated through an `int`
cast, and is received into the fixed 16384-pair (65536-byte) frame buffer
with no check on `num_samples`.  Below the wrap (`num_samples < 2 ^ 29`)
the cast length is exactly `4 * num_samples` bytes, so the receive stays
within the buffer's bounds iff `num_samples ≤ 16384`, and every frame
with `16384 < num_samples < 2 ^ 29` makes the receive target memory past
the buffer's end; the streaming loop performs such a receive for any
`num_samples` with a non-negative cast length whenever the bytes arrive. -/
theorem frame_buffer_overflow (s : List ℕ) (dsp : DspState) :
    (∀ n : ℕ, n < 2 ^ 29 →
      recvLen n = ((4 * n : ℕ) : ℤ) ∧
      (recvReqBytes n ≤ frameBufferBytes ↔ n ≤ 16384)) ∧
    (∀ n : ℕ, 16384 < n → n < 2 ^ 29 →
      frameBufferBytes < recvReqBytes n) ∧
    (u32At s 0 = IQ_MAGIC_DATA →
      ¬recvLen (u32At s 8) < 0 →
      FRAME_HDR_SIZE + recvReqBytes (u32At s 8) ≤ s.length →
      (loopStep s dsp).1 =
        Step.next ((s.drop FRAME_HDR_SIZE).drop (recvReqBytes (u32At s 8)))
          none (u32At s 8)) := by
  have hlen4 : ∀ n : ℕ, n < 2 ^ 29 → recvLen n = ((4 * n : ℕ) : ℤ) := by
    intro n hn
    unfold recvLen toInt32 dataSizeBytes
    split
    · omega
    · omega
  have hreq4 : ∀ n : ℕ, n < 2 ^ 29 → recvReqBytes n = 4 * n := by
    intro n hn
    unfold recvReqBytes
    rw [hlen4 n hn]
    exact Int.toNat_natCast _
  refine ⟨?_, ?_, ?_⟩
  · intro n hn
    refine ⟨hlen4 n hn, ?_⟩
    rw [hreq4 n hn]
    unfold frameBufferBytes
    omega
  · intro n h1 h2
    rw [hreq4 n h2]
    unfold frameBufferBytes
    omega
  · intro hmagic hneg hlen
    have h16 : FRAME_HDR_SIZE ≤ s.length := by
      unfold FRAME_HDR_SIZE at *
      omega
    have e1 := recvBytes_of_le h16
    have hmagic16 : u32At (s.take FRAME_HDR_SIZE) 0 = IQ_MAGIC_DATA := by
      rw [u32At_take (by decide)]
      exact hmagic
    have hn8 : u32At (s.take FRAME_HDR_SIZE) 8 = u32At s 8 :=
      u32At_take (by decide)
    have hds : recvReqBytes (u32At s 8) ≤ (s.drop FRAME_HDR_SIZE).length := by
      simp only [List.length_drop]
      unfold FRAME_HDR_SIZE at *
      omega
    have e2 := recvBytes_of_le hds
    unfold loopStep
    rw [e1]
    simp only [hmagic16, hn8]
    first
    | rw [if_pos trivial]
    | rw [if_pos (show IQ_MAGIC_DATA = IQ_MAGIC_DATA from rfl)]
    rw [if_neg hneg, e2]

/-- Witness for `frame_buffer_overflow`: 20000 samples exceed the buffer,
and a concrete 2-sample data frame is received without any size check. -/
theorem frame_buffer_overflow_witness :
    frameBufferBytes < recvReqBytes 20000 ∧
    (loopStep
      ([0x51, 0x44, 0x51, 0x49, 0, 0, 0, 0, 2, 0, 0, 0, 0, 0, 0, 0] ++
        List.replicate 8 0) (initDsp 50)).1 =
      Step.next [] none 2 := by
  constructor
  · exact (frame_buffer_overflow [] (initDsp 50)).2.1 20000 (by norm_num)
      (by norm_num)
  · have h := (frame_buffer_overflow
      ([0x51, 0x44, 0x51, 0x49, 0, 0, 0, 0, 2, 0, 0, 0, 0, 0, 0, 0] ++
        List.replicate 8 0) (initDsp 50)).2.2 (by decide) (by decide)
      (by decide)
    rw [h]
    decide

/-! ### Theorems: session error handling and exit status (C1) -/

/-- Every loop iteration either breaks (leaving the DSP state unchanged)
or consumes at least the 16 common-header bytes from the stream. -/
lemma loopStep_cases (s : List ℕ) (dsp : DspState) :
    (∃ r, loopStep s dsp = (Step.halt r, dsp)) ∨
    (∃ rest rep k d, loopStep s dsp = (Step.next rest rep k, d) ∧
      rest.length + FRAME_HDR_SIZE ≤ s.length) := by
  unfold loopStep
  cases h1 : recvBytes s FRAME_HDR_SIZE with
  | none => exact Or.inl ⟨_, rfl⟩
  | some pr =>
    obtain ⟨hb, rest0⟩ := pr
    obtain ⟨hhb, hrest0, h16⟩ := recvBytes_eq_some h1
    dsimp only
    by_cases hdata : u32At hb 0 = IQ_MAGIC_DATA
    · rw [if_pos hdata]
      by_cases hneg : recvLen (u32At hb 8) < 0
      · rw [if_pos hneg]
        exact Or.inl ⟨_, rfl⟩
      · rw [if_neg hneg]
        cases h2 : recvBytes rest0 (recvReqBytes (u32At hb 8)) with
        | none => exact Or.inl ⟨_, rfl⟩
        | some pr2 =>
          obtain ⟨payload, rest2⟩ := pr2
          obtain ⟨_, hrest2, _⟩ := recvBytes_eq_some h2
          refine Or.inr ⟨rest2, none, u32At hb 8, _, rfl, ?_⟩
          rw [hrest2, hrest0]
          simp only [List.length_drop]
          unfold FRAME_HDR_SIZE at *
          omega
    · rw [if_neg hdata]
      by_cases hmeta : u32At hb 0 = IQ_MAGIC_META
      · rw [if_pos hmeta]
        cases h2 : recvBytes rest0 (META_SIZE - FRAME_HDR_SIZE) with
        | none => exact Or.inl ⟨_, rfl⟩
        | some pr2 =>
          obtain ⟨extra, rest2⟩ := pr2
          obtain ⟨_, hrest2, _⟩ := recvBytes_eq_some h2
          refine Or.inr ⟨rest2, _, 0, _, rfl, ?_⟩
          rw [hrest2, hrest0]
          simp only [List.length_drop]
          unfold FRAME_HDR_SIZE at *
          omega
      · rw [if_neg hmeta]
        exact Or.inl ⟨_, rfl⟩

/-- With fuel exceeding the stream length, the streaming loop always
terminates by taking one of its `break`s. -/
lemma sessionLoop_terminates : ∀ (fuel : ℕ) (s : List ℕ) (dsp : DspState),
    s.length < fuel → ∃ r, (sessionLoop fuel s dsp).reason = some r := by
  intro fuel
  induction fuel with
  | zero => intro s dsp h; omega
  | succ fuel ih =>
    intro s dsp h
    rcases loopStep_cases s dsp with ⟨r, hr⟩ | ⟨rest, rep, k, d, heq, hlen⟩
    · refine ⟨r, ?_⟩
      unfold sessionLoop
      rw [hr]
    · obtain ⟨r, hrr⟩ := ih rest d (by unfold FRAME_HDR_SIZE at hlen; omega)
      refine ⟨r, ?_⟩
      unfold sessionLoop
      rw [heq]
      exact hrr

/-- Claim C1 (amended): failures before streaming — connection failure,
or a stream-header failure (short read, bad magic, unsupported encoding) —
exit with non-zero status 1; a fatal error inside the streaming loop
(mid-stream disconnect, short payload read, unknown frame magic) makes the
loop terminate via one of its breaks, but the process then exits with
status 0. -/
theorem session_exit_status :
    (∀ (s : List ℕ) (dsp : DspState), (runFull false s dsp).exit = 1) ∧
    (∀ (s : List ℕ) (dsp : DspState), readStreamHeader s = none →
      (runFull true s dsp).exit = 1) ∧
    (∀ (s : List ℕ) (dsp : DspState) (h : StreamHeader) (rest : List ℕ),
      readStreamHeader s = some (h, rest) →
      (runFull true s dsp).exit = 0 ∧
      ∃ r, (runFull true s dsp).reason = some r) := by
  refine ⟨fun s dsp => rfl, ?_, ?_⟩
  · intro s dsp h
    rw [runFull_headerFail dsp h]
  · intro s dsp h rest hsome
    unfold runFull runSession
    rw [if_pos rfl, hsome]
    exact ⟨rfl, sessionLoop_terminates _ rest dsp (by omega)⟩

/-- Counterexample to claim C1 as stated: after a valid header, a frame
with an unrecognized magic is a fatal protocol error — the loop breaks —
yet the process completes with exit status 0, not a non-zero status. -/
theorem session_streaming_error_exit_zero :
    (runFull true (headerOkBytes ++ List.replicate 16 0) (initDsp 50)).reason
      = some ExitReason.unknownMagic ∧
    (runFull true (headerOkBytes ++ List.replicate 16 0) (initDsp 50)).exit
      = 0 := by
  constructor <;> decide

/-- Witness for `session_exit_status` at concrete inputs. -/
theorem session_exit_status_witness :
    (runFull false [] (initDsp 50)).exit = 1 ∧
    (runFull true [] (initDsp 50)).exit = 1 ∧
    (runFull true (headerOkBytes ++ List.replicate 16 0) (initDsp 50)).exit
      = 0 :=
  ⟨session_exit_status.1 [] (initDsp 50),
   session_exit_status.2.1 [] (initDsp 50) (by decide),
   (session_exit_status.2.2 (headerOkBytes ++ List.replicate 16 0)
      (initDsp 50)
      ⟨0x50485849, 0, 2000000, 1, 0, 0, 0, 0⟩ (List.replicate 16 0)
      (by decide)).1⟩

/-- Witness for `decimation_count`: the spec's end-to-end instance — one
1000-sample frame from the freshly initialized DSP state yields exactly 23
buffered samples and no flush. -/
theorem decimation_count_witness :
    emittedTotal (process_iq_samples (initDsp 50)
      (List.replicate 1000 ((1000 : ℤ), (0 : ℤ)))) = 23 ∧
    (process_iq_samples (initDsp 50)
      (List.replicate 1000 ((1000 : ℤ), (0 : ℤ)))).flushed = [] ∧
    (process_iq_samples (initDsp 50)
      (List.replicate 1000 ((1000 : ℤ), (0 : ℤ)))).outBuf.length = 23 := by
  have h := (decimation_count (initDsp 50)
      (List.replicate 1000 ((1000 : ℤ), (0 : ℤ))) [] rfl).2.2
      (List.length_replicate 1000 _) rfl
  refine ⟨?_, ?_, h.2.2⟩
  · rw [h.1]
    rfl
  · rw [h.2.1]
    rfl

/-! ### Theorems: lowpass BIBO stability (C7) -/

/-- A first-order contraction with bounded forcing stays bounded. -/
lemma contract_bound (s : ℕ → ℂ) (r V : ℝ) (hr0 : 0 ≤ r) (hr1 : r < 1)
    (h : ∀ n, ‖s (n + 1)‖ ≤ r * ‖s n‖ + V) :
    ∀ n, ‖s n‖ ≤ max ‖s 0‖ (V / (1 - r)) := by
  intro n
  induction n with
  | zero => exact le_max_left _ _
  | succ n ih =>
    have h1 := h n
    have hMV : V / (1 - r) ≤ max ‖s 0‖ (V / (1 - r)) := le_max_right _ _
    have h1r : 0 < 1 - r := by linarith
    have hV : V ≤ max ‖s 0‖ (V / (1 - r)) * (1 - r) :=
      (div_le_iff h1r).1 hMV
    have h2 : r * ‖s n‖ ≤ r * max ‖s 0‖ (V / (1 - r)) :=
      mul_le_mul_of_nonneg_left ih hr0
    nlinarith

/-- Iterating `lowpass_process` from zeroed history computes exactly the
`biquadRec` recurrence on `padIn`-indexed inputs. -/
lemma lowpass_run_closed (lp : Lowpass) (u : ℕ → ℝ)
    (hx1 : lp.x1 = 0) (hx2 : lp.x2 = 0) (hy1 : lp.y1 = 0) (hy2 : lp.y2 = 0) :
    ∀ n, lowpass_run lp u n =
      { x1 := padIn u (n + 1), x2 := padIn u n
        y1 := biquadRec lp.b0 lp.b1 lp.b2 lp.a1 lp.a2 u (n + 1)
        y2 := biquadRec lp.b0 lp.b1 lp.b2 lp.a1 lp.a2 u n
        b0 := lp.b0, b1 := lp.b1, b2 := lp.b2, a1 := lp.a1, a2 := lp.a2 } := by
  intro n
  induction n with
  | zero =>
    obtain ⟨x1, x2, y1, y2, b0, b1, b2, a1, a2⟩ := lp
    simp only at hx1 hx2 hy1 hy2
    subst hx1 hx2 hy1 hy2
    simp [lowpass_run, padIn, biquadRec]
  | succ n ih =>
    show (lowpass_process (lowpass_run lp u n) (u n)).2 = _
    rw [ih]
    unfold lowpass_process
    dsimp only
    congr 1

/-- The analytic core: a second-order real recurrence with complex poles
inside the unit circle (`a1 ^ 2 < 4 * a2` and `a2 < 1`) maps bounded
inputs to bounded outputs. -/
lemma biquad_bounded (b0 b1 b2 a1 a2 : ℝ) (u : ℕ → ℝ) (B : ℝ)
    (hu : ∀ n, |u n| ≤ B)
    (hdisc : a1 ^ 2 < 4 * a2) (ha2lt : a2 < 1) :
    ∃ C, ∀ n, |biquadRec b0 b1 b2 a1 a2 u n| ≤ C := by
  have ha2pos : 0 < a2 := by nlinarith [sq_nonneg a1]
  have hB : 0 ≤ B := le_trans (abs_nonneg _) (hu 0)
  set D : ℝ := a2 - a1 ^ 2 / 4 with hD
  have hDpos : 0 < D := by rw [hD]; nlinarith
  set x : ℝ := -a1 / 2 with hx
  set y : ℝ := Real.sqrt D with hy
  have hy2 : y ^ 2 = D := Real.sq_sqrt hDpos.le
  set p : ℂ := ⟨x, y⟩ with hp
  set q : ℂ := ⟨x, -y⟩ with hq
  have hyy : y * y = a2 - a1 ^ 2 / 4 := by
    have h := hy2
    rw [pow_two, hD] at h
    exact h
  have hxy : x * x + y * y = a2 := by
    rw [hx, hyy]
    ring
  have ha1c : ((a1 : ℝ) : ℂ) = -(p + q) := by
    rw [hp, hq]
    apply Complex.ext
    · show a1 = -(x + x)
      rw [hx]
      ring
    · show (0 : ℝ) = -(y + -y)
      ring
  have ha2c : ((a2 : ℝ) : ℂ) = p * q := by
    rw [hp, hq]
    apply Complex.ext
    · show a2 = x * x - y * -y
      rw [← hxy]
      ring
    · show (0 : ℝ) = x * -y + y * x
      ring
  set r : ℝ := Real.sqrt a2 with hr
  have hr0 : 0 ≤ r := Real.sqrt_nonneg _
  have hr2 : r ^ 2 = a2 := Real.sq_sqrt ha2pos.le
  have hr1 : r < 1 := by nlinarith [hr2, hr0, sq_nonneg (r - 1)]
  have hnormp : ‖p‖ = r := by
    rw [Complex.norm_eq_abs, Complex.abs_apply, Complex.normSq_mk, hxy, hr]
  have hnormq : ‖q‖ = r := by
    rw [Complex.norm_eq_abs, Complex.abs_apply, Complex.normSq_mk]
    rw [show x * x + -y * -y = a2 by rw [← hxy]; ring, hr]
  set Y : ℕ → ℝ := biquadRec b0 b1 b2 a1 a2 u with hYdef
  set X : ℕ → ℝ := padIn u with hXdef
  have hYrec : ∀ n, Y (n + 2) =
      b0 * X (n + 2) + b1 * X (n + 1) + b2 * X n
        - a1 * Y (n + 1) - a2 * Y n := fun n => rfl
  have hX : ∀ n, |X n| ≤ B := by
    intro n
    match n with
    | 0 => simpa [hXdef, padIn] using hB
    | 1 => simpa [hXdef, padIn] using hB
    | n + 2 => exact hu n
  set V : ℝ := (|b0| + |b1| + |b2|) * B with hV
  have hv : ∀ n, |b0 * X (n + 2) + b1 * X (n + 1) + b2 * X n| ≤ V := by
    intro n
    have t0 : |b0 * X (n + 2)| ≤ |b0| * B := by
      rw [abs_mul]
      exact mul_le_mul_of_nonneg_left (hX (n + 2)) (abs_nonneg _)
    have t1 : |b1 * X (n + 1)| ≤ |b1| * B := by
      rw [abs_mul]
      exact mul_le_mul_of_nonneg_left (hX (n + 1)) (abs_nonneg _)
    have t2 : |b2 * X n| ≤ |b2| * B := by
      rw [abs_mul]
      exact mul_le_mul_of_nonneg_left (hX n) (abs_nonneg _)
    calc |b0 * X (n + 2) + b1 * X (n + 1) + b2 * X n|
        ≤ |b0 * X (n + 2) + b1 * X (n + 1)| + |b2 * X n| := abs_add _ _
      _ ≤ |b0 * X (n + 2)| + |b1 * X (n + 1)| + |b2 * X n| := by
          have := abs_add (b0 * X (n + 2)) (b1 * X (n + 1))
          linarith
      _ ≤ V := by rw [hV]; linarith
  set W : ℕ → ℂ := fun n => ((Y (n + 1) : ℝ) : ℂ) - p * ((Y n : ℝ) : ℂ)
    with hW
  have hWrec : ∀ n, W (n + 1) =
      q * W n + ((b0 * X (n + 2) + b1 * X (n + 1) + b2 * X n : ℝ) : ℂ) := by
    intro n
    rw [hW]
    dsimp only
    rw [hYrec n]
    push_cast
    linear_combination (-((Y (n + 1) : ℝ) : ℂ)) * ha1c
      + (-((Y n : ℝ) : ℂ)) * ha2c
  have hWstep : ∀ n, ‖W (n + 1)‖ ≤ r * ‖W n‖ + V := by
    intro n
    rw [hWrec n]
    calc ‖q * W n + ((b0 * X (n + 2) + b1 * X (n + 1) + b2 * X n : ℝ) : ℂ)‖
        ≤ ‖q * W n‖ + ‖((b0 * X (n + 2) + b1 * X (n + 1) + b2 * X n : ℝ) : ℂ)‖ :=
          norm_add_le _ _
      _ = r * ‖W n‖ + |b0 * X (n + 2) + b1 * X (n + 1) + b2 * X n| := by
          rw [norm_mul, hnormq, Complex.norm_real, Real.norm_eq_abs]
      _ ≤ r * ‖W n‖ + V := by
          have := hv n
          linarith
  have hWbound := contract_bound W r V hr0 hr1 hWstep
  set M1 : ℝ := max ‖W 0‖ (V / (1 - r)) with hM1
  have hM1pos : 0 ≤ M1 := le_trans (norm_nonneg _) (hWbound 0)
  set Z : ℕ → ℂ := fun n => ((Y n : ℝ) : ℂ) with hZ
  have hZstep : ∀ n, ‖Z (n + 1)‖ ≤ r * ‖Z n‖ + M1 := by
    intro n
    have hZrec : Z (n + 1) = p * Z n + W n := by
      rw [hZ, hW]
      dsimp only
      ring
    rw [hZrec]
    calc ‖p * Z n + W n‖ ≤ ‖p * Z n‖ + ‖W n‖ := norm_add_le _ _
      _ = r * ‖Z n‖ + ‖W n‖ := by rw [norm_mul, hnormp]
      _ ≤ r * ‖Z n‖ + M1 := by
          have := hWbound n
          linarith
  have hZbound := contract_bound Z r M1 hr0 hr1 hZstep
  refine ⟨max ‖Z 0‖ (M1 / (1 - r)), fun n => ?_⟩
  have := hZbound n
  rwa [hZ, Complex.norm_real, Real.norm_eq_abs] at this

/-- Claim C7: for every cutoff strictly between 0 and half the sample
rate, the filter produced by `lowpass_init` is BIBO stable: iterating
`lowpass_process` over any input sequence bounded by `B` produces outputs
bounded by some `C` (the feedback coefficients put both poles strictly
inside the unit circle). -/
theorem lowpass_bibo (cutoff rate : ℝ) (hc : 0 < cutoff)
    (hhalf : cutoff < rate / 2) (u : ℕ → ℝ) (B : ℝ)
    (hu : ∀ n, |u n| ≤ B) :
    ∃ C, ∀ n, |(lowpass_run (lowpass_init cutoff rate) u n).y1| ≤ C := by
  have hrate : 0 < rate := by linarith
  set w0 : ℝ := 2 * 3.14159265 * cutoff / rate with hw0
  have hw0pos : 0 < w0 := by
    rw [hw0]
    positivity
  have hw0lt : w0 < Real.pi := by
    have h1 : w0 < 3.14159265 := by
      rw [hw0, div_lt_iff hrate]
      nlinarith
    have h2 : (3.14159265 : ℝ) < Real.pi := by
      calc (3.14159265 : ℝ) ≤ 3.14159265358979323846 := by norm_num
        _ < Real.pi := Real.pi_gt_d20
    linarith
  have hsin : 0 < Real.sin w0 := Real.sin_pos_of_pos_of_lt_pi hw0pos hw0lt
  set sn : ℝ := Real.sin w0 with hsn
  set cs : ℝ := Real.cos w0 with hcs
  have hpyth : sn ^ 2 + cs ^ 2 = 1 := Real.sin_sq_add_cos_sq w0
  set alpha : ℝ := sn / (2 * 0.7071) with halpha
  have halpha_pos : 0 < alpha := by
    rw [halpha]
    positivity
  have halpha_lt : alpha < sn := by
    rw [halpha, div_lt_iff (by norm_num : (0:ℝ) < 2 * 0.7071)]
    nlinarith
  set a0 : ℝ := 1 + alpha with ha0
  have ha0pos : 0 < a0 := by rw [ha0]; linarith
  have ea1 : (lowpass_init cutoff rate).a1 = -2 * cs / a0 := rfl
  have ea2 : (lowpass_init cutoff rate).a2 = (1 - alpha) / a0 := rfl
  have hkey : cs ^ 2 < 1 - alpha ^ 2 := by nlinarith
  have hdisc : (lowpass_init cutoff rate).a1 ^ 2 <
      4 * (lowpass_init cutoff rate).a2 := by
    rw [ea1, ea2, div_pow, div_lt_iff (pow_pos ha0pos 2), mul_assoc]
    have hexp : (1 - alpha) / a0 * a0 ^ 2 = (1 - alpha) * a0 := by
      rw [pow_two, ← mul_assoc, div_mul_cancel₀ _ ha0pos.ne']
    rw [hexp, ha0]
    nlinarith [hkey, halpha_pos]
  have ha2lt : (lowpass_init cutoff rate).a2 < 1 := by
    rw [ea2, div_lt_one ha0pos, ha0]
    linarith
  obtain ⟨C, hC⟩ := biquad_bounded (lowpass_init cutoff rate).b0
    (lowpass_init cutoff rate).b1 (lowpass_init cutoff rate).b2
    (lowpass_init cutoff rate).a1 (lowpass_init cutoff rate).a2 u B hu
    hdisc ha2lt
  refine ⟨C, fun n => ?_⟩
  rw [lowpass_run_closed (lowpass_init cutoff rate) u rfl rfl rfl rfl n]
  exact hC (n + 1)

/-- Witness for `lowpass_bibo`: the program's own parameters, 3 kHz cutoff
at 2 MHz sample rate, with the zero input sequence bounded by 0. -/
theorem lowpass_bibo_witness :
    ∃ C, ∀ n,
      |(lowpass_run (lowpass_init 3000 2000000) (fun _ => 0) n).y1| ≤ C :=
  lowpass_bibo 3000 2000000 (by norm_num) (by norm_num) (fun _ => 0) 0
    (fun n => by norm_num)

end AmReceiver
